import Mathlib

/-!
Verification of the data-dashboard orchestration logic (`app.py`) against its
specification.  The pipeline is shallowly embedded: tables are lists of named
columns (numeric columns hold optional rationals, the `none` cell being the
missing-value marker; text columns hold optional strings), the user-triggered
handlers become pure Lean functions returning the new table together with the
message the UI would show, and Python string primitives used for file-name
handling (`os.path.splitext`, `str.lower`, `str.replace`) are reimplemented
faithfully on character lists.
-/

namespace DataToolkit

/-- Kind of a message surfaced to the user, mirroring the distinct
Streamlit widgets used by the app (st.success / st.warning / st.error). -/
inductive MsgKind where
  | success
  | warning
  | error
deriving DecidableEq, Repr

/-- A user-visible message: its widget kind and its text. -/
structure Msg where
  kind : MsgKind
  text : String
deriving DecidableEq, Repr

/-- Data held by one column of a table.  A pandas column is homogeneously
typed; `select_dtypes(include=["number"])` picks exactly the `numeric`
columns.  A `none` entry is a missing value (NaN for numeric columns). -/
inductive ColData where
  | numeric : List (Option ℚ) → ColData
  | textual : List (Option String) → ColData
deriving DecidableEq, Repr

/-- A named column. -/
structure Col where
  name : String
  data : ColData
deriving DecidableEq, Repr

/-- A table is an ordered sequence of named columns. -/
abbrev Table := List Col

/-- Number of cells in a column. -/
def colLen : ColData → Nat
  | .numeric xs => xs.length
  | .textual xs => xs.length

/-- Whether a column is numeric (selected by select_dtypes(["number"])). -/
def isNumericCol (c : Col) : Bool :=
  match c.data with
  | .numeric _ => true
  | .textual _ => false

/-- The text payload of a column, `none` for numeric columns.  Used to state
that an operation leaves every non-numeric column untouched. -/
def textData (c : Col) : Option (List (Option String)) :=
  match c.data with
  | .textual xs => some xs
  | .numeric _ => none

/- ### Rows, for duplicate elimination.
pandas `drop_duplicates` compares whole rows; for it we use the row-major
view of a table: a row is the list of its cell values. -/

/-- A cell of the row-major view. -/
inductive Cell where
  | num : ℚ → Cell
  | str : String → Cell
  | missing : Cell
deriving DecidableEq, Repr

/-- A row: one cell per column, in column order. -/
abbrev Row := List Cell

/- ### Deduplicate (df.drop_duplicates, keep="first") -/

/-- Core of drop_duplicates: keep each row not already seen earlier,
threading the set of rows seen so far.  Mirrors pandas keep="first". -/
def dropDupAux : List Row → List Row → List Row
  | [], _ => []
  | r :: rs, seen =>
      if r ∈ seen then dropDupAux rs seen
      else r :: dropDupAux rs (r :: seen)

/-- df.drop_duplicates(inplace=True): remove rows equal to an earlier row,
retaining the first occurrence. -/
def dropDuplicates (rs : List Row) : List Row :=
  dropDupAux rs []

/-- Result of the Eliminate Duplicate Rows button. -/
structure DedupResult where
  table : List Row
  removed : Nat
  msg : Msg
deriving Repr

/-- The Eliminate Duplicate Rows handler: initial_rows = len(df);
df.drop_duplicates(inplace=True); final_rows = len(df);
duplicates_removed = initial_rows - final_rows; st.success(...). -/
def eliminateDuplicates (rs : List Row) : DedupResult :=
  let initialRows := rs.length
  let t := dropDuplicates rs
  let finalRows := t.length
  let removed := initialRows - finalRows
  { table := t
    removed := removed
    msg := ⟨.success, toString removed ++ " duplicate rows successfully removed!"⟩ }

/- ### Impute (df[numeric_cols] = df[numeric_cols].fillna(df[numeric_cols].mean())) -/

/-- The present (non-missing) values of a numeric column. -/
def presentVals (xs : List (Option ℚ)) : List ℚ :=
  xs.filterMap id

/-- pandas Series.mean(): arithmetic mean of the non-missing values, NaN
(modelled as `none`) when every value is missing. -/
def colMean (xs : List (Option ℚ)) : Option ℚ :=
  let p := presentVals xs
  if p.length = 0 then none else some (p.sum / (p.length : ℚ))

/-- Effect of fillna(m) on one cell: a missing cell becomes m, a present
cell is kept. -/
def fillCell (m : ℚ) : Option ℚ → Option ℚ
  | none => some m
  | some v => some v

/-- Series.fillna(mean): missing entries become the column mean; when the
mean is itself NaN (entirely missing column) fillna leaves the column
unchanged. -/
def fillWithMean (xs : List (Option ℚ)) : List (Option ℚ) :=
  match colMean xs with
  | none => xs
  | some m => xs.map (fillCell m)

/-- Number of missing entries of a numeric column (isnull().sum()). -/
def missingCountNum (xs : List (Option ℚ)) : Nat :=
  (xs.filter (fun c => c.isNone)).length

/-- Missing-value count contributed by one column to
df[numeric_cols].isnull().sum().sum(): only numeric columns are selected. -/
def numericMissing (c : Col) : Nat :=
  match c.data with
  | .numeric xs => missingCountNum xs
  | .textual _ => 0

/-- df[numeric_cols].isnull().sum().sum() over the whole table. -/
def tableMissing (t : Table) : Nat :=
  (t.map numericMissing).sum

/-- Effect of the fillna assignment on one column: a numeric column is
filled with its own mean, any other column is left untouched. -/
def imputeCol (c : Col) : Col :=
  match c.data with
  | .numeric xs => { c with data := .numeric (fillWithMean xs) }
  | .textual _ => c

/-- The in-place column assignment df[numeric_cols] = ...fillna(...mean()):
every numeric column is filled with its own mean, every other column is
left untouched. -/
def imputeTable (t : Table) : Table :=
  t.map imputeCol

/-- Result of the Impute Missing Values button. -/
structure ImputeResult where
  table : Table
  filled : Nat
  msg : Msg
deriving Repr

/-- The Impute Missing Values handler: missing_before, fillna with the
column means, missing_after, filled_values = missing_before - missing_after,
then st.success(...) — a success message in every case. -/
def imputeHandler (t : Table) : ImputeResult :=
  let missingBefore := tableMissing t
  let t2 := imputeTable t
  let missingAfter := tableMissing t2
  let filled := missingBefore - missingAfter
  { table := t2
    filled := filled
    msg := ⟨.success,
      "Successfully imputed " ++ toString filled ++ " missing values with the mean."⟩ }

/-- Number of positions at which two numeric columns differ. -/
def changedCells : List (Option ℚ) → List (Option ℚ) → Nat
  | x :: xs, y :: ys => (if x = y then 0 else 1) + changedCells xs ys
  | _, _ => 0

/-- Cells changed between a table and its update, summed per column. -/
def colChanged (c c2 : Col) : Nat :=
  match c.data, c2.data with
  | .numeric xs, .numeric ys => changedCells xs ys
  | .textual xs, .textual ys =>
      ((xs.zip ys).filter (fun p => p.1 ≠ p.2)).length
  | _, _ => 0

/-- Total number of cell values changed between a table and its update. -/
def tableChanged (t t2 : Table) : Nat :=
  ((t.zip t2).map (fun p => colChanged p.1 p.2)).sum

/- ### Scale Numeric Data -/

/-- Whether df.select_dtypes(include=["number"]).columns is non-empty. -/
def hasNumericCol (t : Table) : Bool :=
  t.any isNumericCol

/-- Smallest element of a list of rationals, `none` on the empty list. -/
def listMin : List ℚ → Option ℚ
  | [] => none
  | x :: xs => some (xs.foldl min x)

/-- Largest element of a list of rationals, `none` on the empty list. -/
def listMax : List ℚ → Option ℚ
  | [] => none
  | x :: xs => some (xs.foldl max x)

/-- sklearn MinMaxScaler.fit_transform on one column: rescale every present
value v to (v - min) / (max - min) with min and max taken over the present
values; missing values stay missing. -/
def minMaxScaleCol (xs : List (Option ℚ)) : List (Option ℚ) :=
  match listMin (presentVals xs), listMax (presentVals xs) with
  | some mn, some mx => xs.map (Option.map (fun v => (v - mn) / (mx - mn)))
  | _, _ => xs

/-- Effect of fit_transform on one column: a numeric column goes through
the per-column transform f, any other column is left untouched. -/
def scaleCol (f : List (Option ℚ) → List (Option ℚ)) (c : Col) : Col :=
  match c.data with
  | .numeric xs => { c with data := .numeric (f xs) }
  | .textual _ => c

/-- scaler.fit_transform(df[numeric_cols]) assigned back in place: apply the
per-column transform f to every numeric column, leave other columns alone. -/
def scaleTable (f : List (Option ℚ) → List (Option ℚ)) (t : Table) : Table :=
  t.map (scaleCol f)

/-- The Scale Numeric Data handler: if numeric_cols.empty then
st.warning("No numeric columns to scale.") and the table is untouched,
else the chosen scaler transforms the numeric columns and st.success is
shown.  The per-column transform of the chosen scaler is the parameter f
(minMaxScaleCol for MinMaxScaler). -/
def scaleHandler (f : List (Option ℚ) → List (Option ℚ)) (t : Table) :
    Table × Msg :=
  if hasNumericCol t then
    (scaleTable f t, ⟨.success, "Successfully scaled numeric columns!"⟩)
  else
    (t, ⟨.warning, "No numeric columns to scale."⟩)

/- ### Column Selection (df = df[columns]) -/

/-- The first column of the table bearing a given name. -/
def lookupCol (t : Table) (n : String) : Option Col :=
  t.find? (fun c => c.name = n)

/-- df[columns]: the table restricted to the selected column names, in the
order they were selected. -/
def selectCols (t : Table) (sel : List String) : Table :=
  sel.filterMap (lookupCol t)

/- ### Data Visualization -/

/-- The chart kinds offered by the visualization selectbox. -/
inductive VizType where
  | bar
  | scatter
  | line
  | histogram
deriving DecidableEq, Repr

/-- Outcome of the visualization block: either a chart of the given kind is
rendered from the table, or a warning is shown and no chart is produced. -/
inductive VizOutcome where
  | chart : VizType → VizOutcome
  | warn : String → VizOutcome
deriving DecidableEq, Repr

/-- Number of numeric columns (len(numeric_cols)). -/
def numericColCount (t : Table) : Nat :=
  (t.filter isNumericCol).length

/-- The warning text of the two-numeric-column guard shared by Scatter Plot
and Line Chart. -/
def twoColGuardMsg : String :=
  "Scatter Plot and Line Chart require at least two numeric columns. Select more columns or choose a different visualization."

/-- The warning text of the Bar Chart branch. -/
def barChartWarnMsg : String :=
  "Bar Chart requires at least two numeric columns."

/-- The visualization dispatch of the app: the outer guard warns when a
Scatter Plot or Line Chart is requested with fewer than two numeric
columns; the Bar Chart branch itself warns below two numeric columns; the
Histogram branch warns when there is no numeric column; otherwise a chart
of the requested kind is rendered. -/
def visualize (t : Table) (viz : VizType) : VizOutcome :=
  let n := numericColCount t
  if n < 2 ∧ (viz = .scatter ∨ viz = .line) then
    .warn twoColGuardMsg
  else
    match viz with
    | .bar => if 2 ≤ n then .chart .bar else .warn barChartWarnMsg
    | .scatter => .chart .scatter
    | .line => .chart .line
    | .histogram =>
        if n = 0 then .warn "Histogram requires at least one numeric column."
        else .chart .histogram

/-- The whole visualization block: it only reads df (the table is never
reassigned inside it), so the handler returns the table unchanged next to
the outcome. -/
def vizHandler (t : Table) (viz : VizType) : Table × VizOutcome :=
  (t, visualize t viz)

/- ### EDA report handler -/

/-- The steps of the try block of the Generate EDA Report button, in
program order: sv.analyze(df); report.show_html(path) which writes the
transient file; open(path).read(); st.components.v1.html(...); then
os.remove(path) as the last statement of the try block. -/
inductive ReportStep where
  | analyze
  | showHtml
  | readBack
  | embed
deriving DecidableEq, Repr

/-- Observable state of one run of the EDA handler: whether the transient
report file exists when the handler returns, and whether the except branch
showed an error. -/
structure EdaState where
  fileExists : Bool
  errorShown : Bool
deriving DecidableEq, Repr

/-- Effect of one successfully executed step on the state: show_html
creates the transient file, the other steps leave the file system alone. -/
def applyStep (s : EdaState) (st : ReportStep) : EdaState :=
  match st with
  | .showHtml => { s with fileExists := true }
  | _ => s

/-- Run the remaining steps of the try block.  A step equal to the failure
point raises: control transfers to the except branch, which shows the
error and does nothing else — in particular it never deletes the file.
When every step completes, the trailing os.remove deletes the file. -/
def runSteps (failAt : Option ReportStep) :
    List ReportStep → EdaState → EdaState
  | [], s => { s with fileExists := false }
  | st :: rest, s =>
      if failAt = some st then { s with errorShown := true }
      else runSteps failAt rest (applyStep s st)

/-- The steps of the try block in program order. -/
def edaSteps : List ReportStep := [.analyze, .showHtml, .readBack, .embed]

/-- One invocation of the Generate EDA Report handler, parameterised by the
step (if any) at which the external call raises. -/
def runEda (failAt : Option ReportStep) : EdaState :=
  runSteps failAt edaSteps ⟨false, false⟩

/- ### Python string primitives for the Loader and the Exporter -/

/-- Index of the last '.' of the name, scanning like str.rfind('.'). -/
def rfindDot (s : List Char) : Option Nat :=
  match s.reverse.findIdx? (fun c => c = '.') with
  | none => none
  | some j => some (s.length - 1 - j)

/-- os.path.splitext on a bare file name (no path separator): split at the
last dot, except that a name whose characters before that dot are all dots
(such as ".bashrc" or "..csv") has no extension. -/
def pySplitext (s : List Char) : List Char × List Char :=
  match rfindDot s with
  | none => (s, [])
  | some i =>
      if (s.take i).any (fun c => c ≠ '.') then (s.take i, s.drop i)
      else (s, [])

/-- str.lower restricted to the ASCII range, enough for extensions. -/
def toLowerL (s : List Char) : List Char :=
  s.map Char.toLower

/-- file_ext = os.path.splitext(file.name)[-1].lower(). -/
def fileExt (name : List Char) : List Char :=
  toLowerL (pySplitext name).2

/-- Scanner of str.replace: scan left to right; while skip > 0 the scanner
is inside an already-replaced occurrence and consumes characters without
emitting them; at skip = 0 a position where the pattern starts emits the
replacement and skips the rest of the occurrence, any other position
emits its character.  (replSkip_drop below shows the skip state equals
resuming the scan after dropping the matched occurrence.) -/
def replSkip (pat rep : List Char) : List Char → Nat → List Char
  | [], _ => []
  | _ :: rest, skip + 1 => replSkip pat rep rest skip
  | c :: rest, 0 =>
      if pat ≠ [] ∧ (c :: rest).take pat.length = pat then
        rep ++ replSkip pat rep rest (pat.length - 1)
      else
        c :: replSkip pat rep rest 0

/-- str.replace(pat, rep): replace every occurrence of pat in s by rep,
scanning left to right, non-overlapping.  (With an empty pattern Python
would interleave rep everywhere; the app only ever passes ".csv" or
".xlsx" as the pattern, and this model keeps s unchanged on an empty
pattern.) -/
def replaceAll (s pat rep : List Char) : List Char :=
  replSkip pat rep s 0

/- ### File Loader -/

/-- Outcome of handing a byte stream to one of the pandas readers: either a
table, or a raised exception carrying a message.  The readers themselves
are external library code, so a file carries the outcome each reader
would produce on its bytes. -/
inductive ParseOutcome where
  | ok : Table → ParseOutcome
  | fail : String → ParseOutcome
deriving DecidableEq, Repr

/-- An uploaded file: its name, and what pd.read_csv respectively
pd.read_excel would yield on its byte content. -/
structure UploadedFile where
  name : List Char
  csvParse : ParseOutcome
  xlsxParse : ParseOutcome
deriving Repr

/-- Per-file outcome of the loading section of the per-file loop body. -/
inductive LoadResult where
  | loaded : Table → LoadResult
  | skippedUnsupported : List Char → LoadResult
  | skippedParseError : String → LoadResult
deriving DecidableEq, Repr

/-- The loading section for one file: dispatch on the lower-cased extension
(read_csv for ".csv", read_excel for ".xlsx", else st.error naming the
extension and continue), catching reader exceptions with st.error and
continue. -/
def loadFile (f : UploadedFile) : LoadResult :=
  let ext := fileExt f.name
  if ext = (".csv").data then
    match f.csvParse with
    | .ok t => .loaded t
    | .fail e => .skippedParseError e
  else if ext = (".xlsx").data then
    match f.xlsxParse with
    | .ok t => .loaded t
    | .fail e => .skippedParseError e
  else
    .skippedUnsupported ext

/-- The for-loop over uploaded_files: each file runs the loading section;
continue on a skipped file moves to the next file, so every file of the
batch is processed regardless of earlier failures. -/
def processBatch : List UploadedFile → List LoadResult
  | [] => []
  | f :: fs => loadFile f :: processBatch fs

/- ### File Conversion (Exporter) -/

/-- The target of the conversion radio button. -/
inductive ConversionType where
  | csv
  | excel
deriving DecidableEq, Repr

/-- The literal extension the handler substitutes in for the target. -/
def targetExt : ConversionType → List Char
  | .csv => (".csv").data
  | .excel => (".xlsx").data

/-- The MIME type the handler passes to st.download_button. -/
def mimeOf : ConversionType → String
  | .csv => "text/csv"
  | .excel => "application/vnd.openxmlformats-officedocument.spreadsheetml.sheet"

/-- Name and MIME type of the produced download. -/
structure ExportResult where
  fileName : List Char
  mime : String
deriving DecidableEq, Repr

/-- The Convert and Download handler's name and MIME selection:
file_name = file.name.replace(file_ext, target_ext) — a global,
case-sensitive substring replacement of the lower-cased source extension —
and the fixed MIME type of the chosen target. -/
def exportHandler (srcName : List Char) (ct : ConversionType) : ExportResult :=
  { fileName := replaceAll srcName (fileExt srcName) (targetExt ct)
    mime := mimeOf ct }

/-- Modelled from the spec: the output name the specification describes,
obtained by replacing the source name's extension (and only it) with the
target extension — the stem of os.path.splitext followed by the target
extension.  Stated for comparison with exportHandler. -/
def specOutputName (srcName : List Char) (ct : ConversionType) : List Char :=
  (pySplitext srcName).1 ++ targetExt ct

/-- The pattern pat occurs in s at position i. -/
def matchAt (s : List Char) (i : Nat) (pat : List Char) : Prop :=
  (s.drop i).take pat.length = pat

instance (s : List Char) (i : Nat) (pat : List Char) :
    Decidable (matchAt s i pat) := by
  unfold matchAt; infer_instance

/-! ## Lemmas about duplicate elimination -/

/-- The deduplicated list is a sublist of the input. -/
theorem dropDupAux_sublist (rs : List Row) (seen : List Row) :
    (dropDupAux rs seen).Sublist rs := by
  induction rs generalizing seen with
  | nil => simp [dropDupAux]
  | cons r rs ih =>
      simp only [dropDupAux]
      split
      · exact (ih seen).trans (List.sublist_cons_self r rs)
      · exact (ih (r :: seen)).cons₂ r

/-- The deduplicated list has no duplicates and avoids the seen set. -/
theorem dropDupAux_nodup (rs seen : List Row) :
    (dropDupAux rs seen).Nodup ∧ ∀ r ∈ dropDupAux rs seen, r ∉ seen := by
  induction rs generalizing seen with
  | nil => simp [dropDupAux]
  | cons r rs ih =>
      by_cases h : r ∈ seen
      · simpa only [dropDupAux, if_pos h] using ih seen
      · simp only [dropDupAux, if_neg h]
        obtain ⟨hn, hm⟩ := ih (r :: seen)
        refine ⟨List.nodup_cons.mpr ⟨fun hr => ?_, hn⟩, ?_⟩
        · exact hm r hr (List.mem_cons_self r seen)
        · intro x hx
          rcases List.mem_cons.mp hx with rfl | hx2
          · exact h
          · exact fun hxs => hm x hx2 (List.mem_cons_of_mem r hxs)

/-- A list without duplicates, disjoint from the seen set, is returned
unchanged. -/
theorem dropDupAux_eq_self (rs : List Row) (hnd : rs.Nodup) :
    ∀ seen, (∀ r ∈ rs, r ∉ seen) → dropDupAux rs seen = rs := by
  induction rs with
  | nil => intro seen _; rfl
  | cons r rs ih =>
      intro seen hdis
      have hr : r ∉ seen := hdis r (List.mem_cons_self r rs)
      simp only [dropDupAux, if_neg hr]
      congr 1
      refine ih (List.nodup_cons.mp hnd).2 (r :: seen) (fun x hx hmem => ?_)
      rcases List.mem_cons.mp hmem with rfl | h2
      · exact (List.nodup_cons.mp hnd).1 hx
      · exact hdis x (List.mem_cons_of_mem r hx) h2

/-- C4: applying Deduplicate twice equals applying it once; the resulting
row count is at most the original; every retained row is unique across all
columns (no two retained rows are equal); and the removed-count the handler
reports satisfies removed + rows_after = rows_before, so it equals rows
before minus rows after. -/
theorem c4_dedup_spec (rs : List Row) :
    dropDuplicates (dropDuplicates rs) = dropDuplicates rs ∧
    (dropDuplicates rs).length ≤ rs.length ∧
    (dropDuplicates rs).Nodup ∧
    (eliminateDuplicates rs).table = dropDuplicates rs ∧
    (eliminateDuplicates rs).removed + (eliminateDuplicates rs).table.length
      = rs.length := by
  have hlen : (dropDuplicates rs).length ≤ rs.length :=
    (dropDupAux_sublist rs []).length_le
  obtain ⟨hnd, -⟩ := dropDupAux_nodup rs []
  refine ⟨?_, hlen, hnd, rfl, ?_⟩
  · exact dropDupAux_eq_self (dropDuplicates rs) hnd [] (by simp)
  · simp only [eliminateDuplicates, dropDuplicates]
    simp only [dropDuplicates] at hlen
    omega

/-! ## Lemmas about mean imputation -/

/-- fillna keeps the column length. -/
theorem fillWithMean_length (xs : List (Option ℚ)) :
    (fillWithMean xs).length = xs.length := by
  unfold fillWithMean
  cases colMean xs <;> simp

/-- A column with no present value has an undefined mean, and fillna leaves
it unchanged. -/
theorem fillWithMean_allMissing (xs : List (Option ℚ))
    (h : presentVals xs = []) : fillWithMean xs = xs := by
  unfold fillWithMean colMean
  simp [h]

/-- One step of the missing-value count. -/
theorem missingCountNum_cons (y : Option ℚ) (ys : List (Option ℚ)) :
    missingCountNum (y :: ys)
      = (if y.isNone then 1 else 0) + missingCountNum ys := by
  unfold missingCountNum
  cases y <;> simp [List.filter_cons, Nat.add_comm]

/-- Filling every missing cell with a value leaves no missing cell. -/
theorem missingCount_map_fill (m : ℚ) (xs : List (Option ℚ)) :
    missingCountNum (xs.map (fillCell m)) = 0 := by
  induction xs with
  | nil => rfl
  | cons c xs ih =>
      cases c <;> simpa [missingCountNum_cons, fillCell] using ih

/-- A column with at least one present value has no missing entry after
fillna with its mean. -/
theorem fillWithMean_noMissing (xs : List (Option ℚ))
    (h : presentVals xs ≠ []) : missingCountNum (fillWithMean xs) = 0 := by
  unfold fillWithMean colMean
  rw [if_neg (by simpa using h)]
  exact missingCount_map_fill _ xs

/-- A column differs from itself at no position. -/
theorem changedCells_self (xs : List (Option ℚ)) : changedCells xs xs = 0 := by
  induction xs with
  | nil => rfl
  | cons c xs ih => simp [changedCells, ih]

/-- Filling every missing cell with a value changes exactly the missing
cells. -/
theorem changedCells_map_fill (m : ℚ) (xs : List (Option ℚ)) :
    changedCells xs (xs.map (fillCell m)) = missingCountNum xs := by
  induction xs with
  | nil => rfl
  | cons c xs ih =>
      cases c <;> simp [changedCells, fillCell, missingCountNum_cons, ih]

/-- The number of missing entries before fillna splits into those still
missing after it and the cells fillna changed. -/
theorem missing_split (xs : List (Option ℚ)) :
    missingCountNum xs
      = missingCountNum (fillWithMean xs) + changedCells xs (fillWithMean xs) := by
  by_cases h : presentVals xs = []
  · rw [fillWithMean_allMissing xs h, changedCells_self, Nat.add_zero]
  · rw [fillWithMean_noMissing xs h, Nat.zero_add]
    unfold fillWithMean colMean
    rw [if_neg (by simpa using h)]
    exact (changedCells_map_fill _ xs).symm

/-- No column changes its name under imputation. -/
theorem imputeCol_name (c : Col) : (imputeCol c).name = c.name := by
  unfold imputeCol
  cases c with
  | mk n d => cases d <;> rfl

/-- Imputation leaves the text payload of every column unchanged. -/
theorem imputeCol_textData (c : Col) : textData (imputeCol c) = textData c := by
  unfold imputeCol textData
  cases c with
  | mk n d => cases d <;> rfl

/-- Imputation keeps every column's cell count. -/
theorem imputeCol_len (c : Col) : colLen (imputeCol c).data = colLen c.data := by
  unfold imputeCol
  cases c with
  | mk n d => cases d <;> simp [colLen, fillWithMean_length]

/-- A column equals itself cell for cell. -/
theorem colChanged_self (c : Col) : colChanged c c = 0 := by
  unfold colChanged
  cases c with
  | mk n d =>
      cases d with
      | numeric xs => exact changedCells_self xs
      | textual xs =>
          simp only []
          induction xs with
          | nil => rfl
          | cons x xs ih =>
              simp only [List.zip, List.zipWith, List.filter] at ih ⊢
              simp [ih]

/-- Per-column version of the missing-count split. -/
theorem numericMissing_split (c : Col) :
    numericMissing c
      = numericMissing (imputeCol c) + colChanged c (imputeCol c) := by
  cases c with
  | mk n d =>
      cases d with
      | numeric xs =>
          simpa [imputeCol, numericMissing, colChanged] using missing_split xs
      | textual xs =>
          simpa [imputeCol, numericMissing] using
            (colChanged_self ⟨n, .textual xs⟩).symm

/-- Table version of the missing-count split: missing values before
imputation are the still-missing ones plus the cells changed. -/
theorem tableMissing_split (t : Table) :
    tableMissing t
      = tableMissing (imputeTable t) + tableChanged t (imputeTable t) := by
  induction t with
  | nil => rfl
  | cons c t ih =>
      simp only [tableMissing, imputeTable, tableChanged, List.map, List.zip,
        List.zipWith, List.sum_cons] at ih ⊢
      have := numericMissing_split c
      omega

/-- Imputation never increases the total number of missing values. -/
theorem tableMissing_impute_le (t : Table) :
    tableMissing (imputeTable t) ≤ tableMissing t := by
  rw [tableMissing_split t]
  omega

/-- C10: Impute modifies only numeric columns: the column names, the
values of every non-numeric column (missing text cells included), and each
column's cell count are unchanged, and the handler returns exactly the
fillna update of the table. -/
theorem c10_impute_frame (t : Table) :
    (imputeHandler t).table.map Col.name = t.map Col.name ∧
    (imputeHandler t).table.map textData = t.map textData ∧
    (imputeHandler t).table.map (fun c => colLen c.data)
      = t.map (fun c => colLen c.data) ∧
    (imputeHandler t).table = imputeTable t := by
  refine ⟨?_, ?_, ?_, rfl⟩ <;>
    simp only [imputeHandler, imputeTable, List.map_map]
  · exact congrArg (fun f => t.map f) (funext imputeCol_name)
  · exact congrArg (fun f => t.map f) (funext imputeCol_textData)
  · exact congrArg (fun f => t.map f) (funext imputeCol_len)

/-- C5: after Impute a numeric column holding k missing values has none
left, unless it was entirely missing, in which case it is unchanged and so
keeps its k missing values; and the filled-count the handler reports is
exactly the number of cell values that changed anywhere in the table. -/
theorem c5_impute_spec (t : Table) (i : Nat) (hi : i < t.length)
    (hi2 : i < (imputeHandler t).table.length) (xs : List (Option ℚ))
    (hx : (t.get ⟨i, hi⟩).data = .numeric xs) :
    ((imputeHandler t).table.get ⟨i, hi2⟩).data = .numeric (fillWithMean xs) ∧
    (presentVals xs ≠ [] → missingCountNum (fillWithMean xs) = 0) ∧
    (presentVals xs = [] →
      fillWithMean xs = xs ∧
      missingCountNum (fillWithMean xs) = missingCountNum xs) ∧
    (imputeHandler t).filled = tableChanged t (imputeHandler t).table := by
  refine ⟨?_, fillWithMean_noMissing xs, ?_, ?_⟩
  · have h2 : i < (imputeTable t).length := hi2
    show ((imputeTable t).get ⟨i, h2⟩).data = .numeric (fillWithMean xs)
    simp only [imputeTable, List.get_eq_getElem, List.getElem_map]
    rw [show t[i] = t.get ⟨i, hi⟩ from rfl]
    unfold imputeCol
    rw [hx]
  · intro h
    have he := fillWithMean_allMissing xs h
    exact ⟨he, by rw [he]⟩
  · show tableMissing t - tableMissing (imputeTable t)
      = tableChanged t (imputeTable t)
    have := tableMissing_split t
    omega

/-- Witness for C5 at a one-column table holding one missing value among
the values 1 and 3: the column becomes [1, 2, 3] and the reported count is
the one changed cell. -/
theorem c5_impute_spec_witness :
    ((imputeHandler [⟨"a", .numeric [some 1, none, some 3]⟩]).table.get
        ⟨0, by decide⟩).data = .numeric (fillWithMean [some 1, none, some 3]) ∧
    (presentVals [some 1, none, some 3] ≠ [] →
      missingCountNum (fillWithMean [some 1, none, some 3]) = 0) ∧
    (presentVals [some 1, none, some 3] = [] →
      fillWithMean [some 1, none, some 3] = [some 1, none, some 3] ∧
      missingCountNum (fillWithMean [some 1, none, some 3])
        = missingCountNum [some 1, none, some 3]) ∧
    (imputeHandler [⟨"a", .numeric [some 1, none, some 3]⟩]).filled
      = tableChanged [⟨"a", .numeric [some 1, none, some 3]⟩]
          (imputeHandler [⟨"a", .numeric [some 1, none, some 3]⟩]).table :=
  c5_impute_spec [⟨"a", .numeric [some 1, none, some 3]⟩] 0 (by decide)
    (by decide) [some 1, none, some 3] rfl

/-! ## No numeric columns: Impute and Scale -/

/-- A table whose columns are all non-numeric is unchanged by the fillna
assignment. -/
theorem imputeTable_no_numeric (t : Table) (h : hasNumericCol t = false) :
    imputeTable t = t := by
  induction t with
  | nil => rfl
  | cons c t ih =>
      simp only [hasNumericCol, List.any_cons, Bool.or_eq_false_iff] at h
      have hc : imputeCol c = c := by
        obtain ⟨n, d⟩ := c
        cases d with
        | numeric xs => exact absurd h.1 (by simp [isNumericCol])
        | textual xs => rfl
      simp only [imputeTable, List.map_cons, hc]
      have := ih (by simpa [hasNumericCol] using h.2)
      simpa [imputeTable] using this

/-- C6 counterexample: on a table holding a single text column, the claim
says Impute reports a warning; the Impute handler instead reports a
success message, namely that 0 missing values were imputed. -/
theorem c6_counterexample :
    (imputeHandler [⟨"b", .textual [some "x"]⟩]).msg.kind = .success ∧
    (imputeHandler [⟨"b", .textual [some "x"]⟩]).msg.kind ≠ .warning ∧
    (imputeHandler [⟨"b", .textual [some "x"]⟩]).msg.text
      = "Successfully imputed 0 missing values with the mean." := by
  refine ⟨rfl, by decide, rfl⟩

/-- C6 (amended): on a table with no numeric column both handlers leave
the table unchanged and crash nothing; Scale reports the warning "No
numeric columns to scale.", while Impute reports a success message with a
filled-count of 0. -/
theorem c6_no_numeric_noop (f : List (Option ℚ) → List (Option ℚ))
    (t : Table) (h : hasNumericCol t = false) :
    (scaleHandler f t).1 = t ∧
    (scaleHandler f t).2 = ⟨.warning, "No numeric columns to scale."⟩ ∧
    (imputeHandler t).table = t ∧
    (imputeHandler t).filled = 0 ∧
    (imputeHandler t).msg.kind = .success := by
  have hs : ¬ hasNumericCol t = true := by simp [h]
  have hi : imputeTable t = t := imputeTable_no_numeric t h
  refine ⟨?_, ?_, hi, ?_, rfl⟩
  · simp [scaleHandler, hs]
  · simp [scaleHandler, hs]
  · show tableMissing t - tableMissing (imputeTable t) = 0
    rw [hi, Nat.sub_self]

/-- Witness for C6 at a one-text-column table with the min-max transform
as the chosen scaler. -/
theorem c6_no_numeric_noop_witness :
    (scaleHandler minMaxScaleCol [⟨"b", .textual [some "x"]⟩]).1
      = [⟨"b", .textual [some "x"]⟩] ∧
    (scaleHandler minMaxScaleCol [⟨"b", .textual [some "x"]⟩]).2
      = ⟨.warning, "No numeric columns to scale."⟩ ∧
    (imputeHandler [⟨"b", .textual [some "x"]⟩]).table
      = [⟨"b", .textual [some "x"]⟩] ∧
    (imputeHandler [⟨"b", .textual [some "x"]⟩]).filled = 0 ∧
    (imputeHandler [⟨"b", .textual [some "x"]⟩]).msg.kind = .success :=
  c6_no_numeric_noop minMaxScaleCol [⟨"b", .textual [some "x"]⟩] (by decide)

/-! ## Visualization -/

/-- C9: requesting a Bar Chart on a table with exactly one numeric column
makes the visualization block emit the Bar Chart precondition warning,
render no chart, and leave the table untouched. -/
theorem c9_barchart (t : Table) (h : numericColCount t = 1) :
    (vizHandler t .bar).2 = .warn barChartWarnMsg ∧
    (∀ k, (vizHandler t .bar).2 ≠ .chart k) ∧
    (vizHandler t .bar).1 = t := by
  have hv : visualize t .bar = .warn barChartWarnMsg := by
    unfold visualize
    simp [h]
  refine ⟨hv, ?_, rfl⟩
  intro k
  show visualize t .bar ≠ _
  rw [hv]
  exact fun hc => VizOutcome.noConfusion hc

/-- Witness for C9 at a table with one numeric column. -/
theorem c9_barchart_witness :
    (vizHandler [⟨"a", .numeric [some 1]⟩] .bar).2 = .warn barChartWarnMsg ∧
    (∀ k, (vizHandler [⟨"a", .numeric [some 1]⟩] .bar).2 ≠ .chart k) ∧
    (vizHandler [⟨"a", .numeric [some 1]⟩] .bar).1 = [⟨"a", .numeric [some 1]⟩] :=
  c9_barchart [⟨"a", .numeric [some 1]⟩] (by decide)

/-! ## EDA report transient file -/

/-- C2 counterexample: when reading the transient report file back raises,
the handler jumps to the except branch and shows an error, but os.remove —
the last statement of the try block — is never reached, so the transient
file still exists when the invocation ends. -/
theorem c2_counterexample :
    (runEda (some .readBack)).fileExists = true ∧
    (runEda (some .readBack)).errorShown = true := by decide

/-- C2 (amended): the transient report file is gone after a successful
invocation and after a failure that occurs before show_html writes it; but
after a failure while reading it back or while embedding it, the file
remains on disk; every failing run shows an error instead of crashing. -/
theorem c2_amended_cleanup :
    (runEda none).fileExists = false ∧
    (runEda (some .analyze)).fileExists = false ∧
    (runEda (some .showHtml)).fileExists = false ∧
    (runEda (some .readBack)).fileExists = true ∧
    (runEda (some .embed)).fileExists = true ∧
    (runEda (some .analyze)).errorShown = true ∧
    (runEda (some .showHtml)).errorShown = true ∧
    (runEda (some .readBack)).errorShown = true ∧
    (runEda (some .embed)).errorShown = true ∧
    (runEda none).errorShown = false := by decide

/-! ## Min-max scaling -/

/-- Folding min never exceeds the start value. -/
theorem foldl_min_le_init (xs : List ℚ) (a : ℚ) : xs.foldl min a ≤ a := by
  induction xs generalizing a with
  | nil => simp
  | cons x xs ih => exact le_trans (ih (min a x)) (min_le_left a x)

/-- Folding min never exceeds any list element. -/
theorem foldl_min_le_mem (xs : List ℚ) (a v : ℚ) (hv : v ∈ xs) :
    xs.foldl min a ≤ v := by
  induction xs generalizing a with
  | nil => cases hv
  | cons x xs ih =>
      rcases List.mem_cons.mp hv with rfl | hv2
      · exact le_trans (foldl_min_le_init xs (min a v)) (min_le_right a v)
      · exact ih (min a x) hv2

/-- The column minimum is a lower bound of the column. -/
theorem listMin_le (xs : List ℚ) (mn : ℚ) (h : listMin xs = some mn) :
    ∀ v ∈ xs, mn ≤ v := by
  cases xs with
  | nil => cases h
  | cons x xs =>
      intro v hv
      have hmn : xs.foldl min x = mn := by simpa [listMin] using h
      rcases List.mem_cons.mp hv with rfl | hv2
      · rw [← hmn]; exact foldl_min_le_init xs v
      · rw [← hmn]; exact foldl_min_le_mem xs x v hv2

/-- Folding max is at least the start value. -/
theorem foldl_max_init_le (xs : List ℚ) (a : ℚ) : a ≤ xs.foldl max a := by
  induction xs generalizing a with
  | nil => simp
  | cons x xs ih => exact le_trans (le_max_left a x) (ih (max a x))

/-- Folding max is at least any list element. -/
theorem foldl_max_mem_le (xs : List ℚ) (a v : ℚ) (hv : v ∈ xs) :
    v ≤ xs.foldl max a := by
  induction xs generalizing a with
  | nil => cases hv
  | cons x xs ih =>
      rcases List.mem_cons.mp hv with rfl | hv2
      · exact le_trans (le_max_right a v) (foldl_max_init_le xs (max a v))
      · exact ih (max a x) hv2

/-- The column maximum is an upper bound of the column. -/
theorem le_listMax (xs : List ℚ) (mx : ℚ) (h : listMax xs = some mx) :
    ∀ v ∈ xs, v ≤ mx := by
  cases xs with
  | nil => cases h
  | cons x xs =>
      intro v hv
      have hmx : xs.foldl max x = mx := by simpa [listMax] using h
      rcases List.mem_cons.mp hv with rfl | hv2
      · rw [← hmx]; exact foldl_max_init_le xs v
      · rw [← hmx]; exact foldl_max_mem_le xs x v hv2

/-- Folding max yields the start value or a list element. -/
theorem foldl_max_mem (xs : List ℚ) (a : ℚ) :
    xs.foldl max a = a ∨ xs.foldl max a ∈ xs := by
  induction xs generalizing a with
  | nil => exact Or.inl rfl
  | cons x xs ih =>
      rw [List.foldl_cons]
      rcases ih (max a x) with h | h
      · rcases le_total x a with hxa | hax
        · left; rw [h, max_eq_left hxa]
        · right; rw [h, max_eq_right hax]; exact List.mem_cons_self x xs
      · right; exact List.mem_cons_of_mem x h

/-- The column maximum is attained by the column. -/
theorem listMax_mem (xs : List ℚ) (mx : ℚ) (h : listMax xs = some mx) :
    mx ∈ xs := by
  cases xs with
  | nil => cases h
  | cons x xs =>
      have hmx : xs.foldl max x = mx := by simpa [listMax] using h
      rcases foldl_max_mem xs x with h2 | h2
      · rw [← hmx, h2]; exact List.mem_cons_self x xs
      · rw [← hmx]; exact List.mem_cons_of_mem x h2

/-- C7: when the present values of a numeric column have distinct minimum
and maximum, min-max scaling maps every present value v to
(v - min)/(max - min), each such result lies in [0,1], a cell holding the
minimum maps to 0, and a cell holding the maximum maps to 1. -/
theorem c7_minmax_spec (xs : List (Option ℚ)) (mn mx : ℚ)
    (hmn : listMin (presentVals xs) = some mn)
    (hmx : listMax (presentVals xs) = some mx)
    (hne : mn ≠ mx) :
    minMaxScaleCol xs
      = xs.map (Option.map (fun v => (v - mn) / (mx - mn))) ∧
    (∀ v ∈ presentVals xs,
      0 ≤ (v - mn) / (mx - mn) ∧ (v - mn) / (mx - mn) ≤ 1) ∧
    (mn - mn) / (mx - mn) = 0 ∧
    (mx - mn) / (mx - mn) = 1 := by
  have hmem : mx ∈ presentVals xs := listMax_mem _ _ hmx
  have hle : mn ≤ mx := listMin_le _ _ hmn mx hmem
  have hpos : 0 < mx - mn := sub_pos.mpr (lt_of_le_of_ne hle hne)
  refine ⟨?_, ?_, ?_, div_self (ne_of_gt hpos)⟩
  · unfold minMaxScaleCol
    rw [hmn, hmx]
  · intro v hv
    have h1 : mn ≤ v := listMin_le _ _ hmn v hv
    have h2 : v ≤ mx := le_listMax _ _ hmx v hv
    refine ⟨div_nonneg (sub_nonneg.mpr h1) (le_of_lt hpos), ?_⟩
    rw [div_le_one hpos]
    exact sub_le_sub_right h2 mn
  · simp

/-- Witness for C7 at the column [1, missing, 3]: minimum 1 and maximum 3. -/
theorem c7_minmax_spec_witness :
    (minMaxScaleCol [some 1, none, some 3]
      = List.map (Option.map (fun v => (v - 1) / (3 - 1)))
          [some 1, none, some 3] ∧
    (∀ v ∈ presentVals [some 1, none, some 3],
      0 ≤ (v - 1) / (3 - 1) ∧ (v - 1) / (3 - 1) ≤ 1) ∧
    ((1 : ℚ) - 1) / (3 - 1) = 0 ∧
    ((3 : ℚ) - 1) / (3 - 1) = 1) :=
  c7_minmax_spec [some 1, none, some 3] 1 3 (by decide) (by decide) (by decide)

/-! ## Column selection -/

/-- When some column of t bears the requested name, the lookup returns the
first such column: a member of t with that name. -/
theorem lookupCol_spec (t : Table) (n : String) (h : ∃ c ∈ t, c.name = n) :
    ∃ c0, lookupCol t n = some c0 ∧ c0 ∈ t ∧ c0.name = n := by
  unfold lookupCol
  have hs : (t.find? (fun c => c.name = n)).isSome := by
    rw [List.find?_isSome]
    obtain ⟨c, hc, hn⟩ := h
    exact ⟨c, hc, by simp [hn]⟩
  obtain ⟨c0, hc0⟩ := Option.isSome_iff_exists.mp hs
  refine ⟨c0, hc0, List.mem_of_find?_eq_some hc0, ?_⟩
  simpa using List.find?_some hc0

/-- C8: when every selected name is carried by some column of the table,
projection yields a table whose column names are exactly the selection in
the order given, whose columns are columns of the source table, and —
given that every source column has m cells (the table invariant) — whose
columns all keep m cells, so the row count and row order of the source
are preserved. -/
theorem c8_select_spec (t : Table) (sel : List String)
    (h : ∀ n ∈ sel, ∃ c ∈ t, c.name = n) :
    (selectCols t sel).map Col.name = sel ∧
    (∀ c ∈ selectCols t sel, c ∈ t) ∧
    (∀ m, (∀ c ∈ t, colLen c.data = m) →
      ∀ c ∈ selectCols t sel, colLen c.data = m) := by
  have hmain : (selectCols t sel).map Col.name = sel ∧
      (∀ c ∈ selectCols t sel, c ∈ t) := by
    induction sel with
    | nil => exact ⟨rfl, by simp [selectCols]⟩
    | cons n sel ih =>
        obtain ⟨c0, hc0, hmem, hname⟩ :=
          lookupCol_spec t n (h n (List.mem_cons_self n sel))
        obtain ⟨ih1, ih2⟩ := ih (fun x hx => h x (List.mem_cons_of_mem n hx))
        have hsel : selectCols t (n :: sel) = c0 :: selectCols t sel := by
          simp [selectCols, List.filterMap_cons, hc0]
        refine ⟨?_, ?_⟩
        · rw [hsel, List.map_cons, ih1, hname]
        · intro c hc
          rw [hsel] at hc
          rcases List.mem_cons.mp hc with rfl | hc2
          · exact hmem
          · exact ih2 c hc2
  exact ⟨hmain.1, hmain.2, fun m hm c hc => hm c (hmain.2 c hc)⟩

/-- Witness for C8: selecting ["b", "a"] from a two-column table of three
rows reorders the two columns and keeps the cell counts. -/
theorem c8_select_spec_witness :
    ((selectCols
        ([⟨"a", .numeric [some 1, none, some 3]⟩,
          ⟨"b", .textual [some "x", none, some "y"]⟩] : Table)
        ["b", "a"]).map Col.name = ["b", "a"] ∧
    (∀ c ∈ selectCols
        ([⟨"a", .numeric [some 1, none, some 3]⟩,
          ⟨"b", .textual [some "x", none, some "y"]⟩] : Table) ["b", "a"],
      c ∈ ([⟨"a", .numeric [some 1, none, some 3]⟩,
            ⟨"b", .textual [some "x", none, some "y"]⟩] : Table)) ∧
    (∀ m, (∀ c ∈ ([⟨"a", .numeric [some 1, none, some 3]⟩,
                   ⟨"b", .textual [some "x", none, some "y"]⟩] : Table),
            colLen c.data = m) →
      ∀ c ∈ selectCols
          ([⟨"a", .numeric [some 1, none, some 3]⟩,
            ⟨"b", .textual [some "x", none, some "y"]⟩] : Table) ["b", "a"],
        colLen c.data = m)) :=
  c8_select_spec
    [⟨"a", .numeric [some 1, none, some 3]⟩,
     ⟨"b", .textual [some "x", none, some "y"]⟩] ["b", "a"] (by decide)

/-! ## File loading -/

/-- The batch loop is a map: each file is loaded independently. -/
theorem processBatch_eq_map (fs : List UploadedFile) :
    processBatch fs = fs.map loadFile := by
  induction fs with
  | nil => rfl
  | cons f fs ih => simp [processBatch, ih]

/-- C1: every file of the batch gets its own load result (a skipped file
does not abort the batch), and the loader dispatches on the lower-cased
extension: ".csv" files go through the CSV reader and ".xlsx" files
through the Excel reader — loading the parsed table on success and
skipping the file with the reader's error on a parse failure — while any
other extension skips the file with an unsupported-format error naming
that extension. -/
theorem c1_loader_spec (fs : List UploadedFile) (i : Nat)
    (hi : i < fs.length) (hi2 : i < (processBatch fs).length) :
    (processBatch fs).length = fs.length ∧
    (processBatch fs).get ⟨i, hi2⟩ = loadFile (fs.get ⟨i, hi⟩) ∧
    (fileExt (fs.get ⟨i, hi⟩).name = (".csv").data →
      loadFile (fs.get ⟨i, hi⟩)
        = match (fs.get ⟨i, hi⟩).csvParse with
          | .ok tb => .loaded tb
          | .fail e => .skippedParseError e) ∧
    (fileExt (fs.get ⟨i, hi⟩).name = (".xlsx").data →
      loadFile (fs.get ⟨i, hi⟩)
        = match (fs.get ⟨i, hi⟩).xlsxParse with
          | .ok tb => .loaded tb
          | .fail e => .skippedParseError e) ∧
    (fileExt (fs.get ⟨i, hi⟩).name ≠ (".csv").data →
      fileExt (fs.get ⟨i, hi⟩).name ≠ (".xlsx").data →
      loadFile (fs.get ⟨i, hi⟩)
        = .skippedUnsupported (fileExt (fs.get ⟨i, hi⟩).name)) := by
  refine ⟨by simp [processBatch_eq_map], ?_, ?_, ?_, ?_⟩
  · simp [processBatch_eq_map, List.get_eq_getElem, List.getElem_map]
  · intro h
    simp only [loadFile]
    rw [if_pos h]
  · intro h
    by_cases hcsv : fileExt (fs.get ⟨i, hi⟩).name = (".csv").data
    · rw [hcsv] at h
      cases h
    · simp only [loadFile]
      rw [if_neg hcsv, if_pos h]
  · intro h1 h2
    simp only [loadFile]
    rw [if_neg h1, if_neg h2]

/-- Witness for C1 on a batch of two files: an unsupported ".txt" upload
followed by a well-formed CSV whose name carries the extension in mixed
case; the second file is still processed and loads its table. -/
theorem c1_loader_spec_witness :
    (processBatch
      [⟨("notes.txt").data, .ok [], .ok []⟩,
       ⟨("Data.Csv").data, .ok [⟨"a", .numeric [some 1]⟩], .fail "bad"⟩]).length
      = ([⟨("notes.txt").data, .ok [], .ok []⟩,
          ⟨("Data.Csv").data, .ok [⟨"a", .numeric [some 1]⟩], .fail "bad"⟩]
          : List UploadedFile).length ∧
    (processBatch
      [⟨("notes.txt").data, .ok [], .ok []⟩,
       ⟨("Data.Csv").data, .ok [⟨"a", .numeric [some 1]⟩], .fail "bad"⟩]).get
        ⟨1, by decide⟩
      = loadFile ⟨("Data.Csv").data, .ok [⟨"a", .numeric [some 1]⟩], .fail "bad"⟩ ∧
    (fileExt ("Data.Csv").data = (".csv").data →
      loadFile ⟨("Data.Csv").data, .ok [⟨"a", .numeric [some 1]⟩], .fail "bad"⟩
        = .loaded [⟨"a", .numeric [some 1]⟩]) ∧
    (fileExt ("Data.Csv").data = (".xlsx").data →
      loadFile ⟨("Data.Csv").data, .ok [⟨"a", .numeric [some 1]⟩], .fail "bad"⟩
        = .skippedParseError "bad") ∧
    (fileExt ("Data.Csv").data ≠ (".csv").data →
      fileExt ("Data.Csv").data ≠ (".xlsx").data →
      loadFile ⟨("Data.Csv").data, .ok [⟨"a", .numeric [some 1]⟩], .fail "bad"⟩
        = .skippedUnsupported (fileExt ("Data.Csv").data)) :=
  c1_loader_spec
    [⟨("notes.txt").data, .ok [], .ok []⟩,
     ⟨("Data.Csv").data, .ok [⟨"a", .numeric [some 1]⟩], .fail "bad"⟩]
    1 (by decide) (by decide)

/-! ## File conversion -/

/-- A skip count covering the whole input emits nothing. -/
theorem replSkip_past_end (pat rep : List Char) (xs : List Char) (k : Nat)
    (h : xs.length ≤ k) : replSkip pat rep xs k = [] := by
  induction xs generalizing k with
  | nil => cases k <;> rfl
  | cons c xs ih =>
      cases k with
      | zero => simp at h
      | succ k => exact ih k (by simpa using h)

/-- The skip state equals resuming the scan after dropping the skipped
characters. -/
theorem replSkip_drop (pat rep : List Char) (xs : List Char) (k : Nat) :
    replSkip pat rep xs k = replSkip pat rep (xs.drop k) 0 := by
  induction xs generalizing k with
  | nil =>
      rw [List.drop_nil]
      cases k <;> rfl
  | cons c xs ih =>
      cases k with
      | zero => rfl
      | succ k => simpa [replSkip] using ih k

/-- On a position where the pattern starts, str.replace emits the
replacement and resumes after the matched occurrence. -/
theorem replaceAll_match (pat rep : List Char) (c : Char) (rest : List Char)
    (hp : pat ≠ []) (hm : (c :: rest).take pat.length = pat) :
    replaceAll (c :: rest) pat rep
      = rep ++ replaceAll ((c :: rest).drop pat.length) pat rep := by
  cases pat with
  | nil => exact absurd rfl hp
  | cons p ps =>
      show replSkip (p :: ps) rep (c :: rest) 0 = _
      rw [replSkip, if_pos ⟨hp, hm⟩]
      rw [replSkip_drop]
      simp [replaceAll, List.drop_succ_cons]

/-- On a position where the pattern does not start, str.replace emits the
character and scans on. -/
theorem replaceAll_no_match (pat rep : List Char) (c : Char)
    (rest : List Char)
    (h : ¬(pat ≠ [] ∧ (c :: rest).take pat.length = pat)) :
    replaceAll (c :: rest) pat rep = c :: replaceAll rest pat rep := by
  show replSkip pat rep (c :: rest) 0 = _
  rw [replSkip, if_neg h]
  rfl

/-- When a non-empty pattern occurs nowhere in the name before the final
occurrence that is the name's tail, str.replace rewrites exactly that
tail. -/
theorem replaceAll_ext_only (stem pat rep : List Char) (hp : pat ≠ [])
    (hno : ∀ i, i < stem.length → ¬ matchAt (stem ++ pat) i pat) :
    replaceAll (stem ++ pat) pat rep = stem ++ rep := by
  induction stem with
  | nil =>
      cases pat with
      | nil => exact absurd rfl hp
      | cons p ps =>
          rw [List.nil_append,
            replaceAll_match (p :: ps) rep p ps hp (List.take_length _),
            List.drop_length]
          simp [replaceAll, replSkip]
  | cons a stem ih =>
      have h0 : ¬ matchAt ((a :: stem) ++ pat) 0 pat :=
        hno 0 (Nat.succ_pos _)
      have hcond :
          ¬(pat ≠ [] ∧ (a :: (stem ++ pat)).take pat.length = pat) := by
        intro hc
        exact h0 (by simpa [matchAt] using hc.2)
      rw [List.cons_append, replaceAll_no_match pat rep a _ hcond,
        ih (fun i hilt => by
          have := hno (i + 1) (Nat.succ_lt_succ hilt)
          simpa [matchAt, List.cons_append] using this)]
      rfl

/-- C3 counterexample: the upload "DATA.CSV" (whose extension lower-cases
to ".csv") converted to Excel keeps the file name "DATA.CSV", because
str.replace finds no occurrence of the lower-cased ".csv" in the
upper-case name — instead of "DATA.xlsx", the name the claim's
extension-swap prescribes. -/
theorem c3_counterexample :
    (exportHandler ("DATA.CSV").data ConversionType.excel).fileName
      = ("DATA.CSV").data ∧
    specOutputName ("DATA.CSV").data ConversionType.excel
      = ("DATA.xlsx").data ∧
    (exportHandler ("DATA.CSV").data ConversionType.excel).fileName
      ≠ specOutputName ("DATA.CSV").data ConversionType.excel := by decide

/-- C3 (amended): the exporter derives the output name by replacing every
occurrence of the lower-cased source extension, as a case-sensitive
substring, with the target extension; in particular, whenever the name
ends in its own lower-cased extension and that extension starts nowhere
earlier in the name, exactly the extension is swapped; the MIME type is
text/csv for CSV and the Office Open XML spreadsheet type for Excel. -/
theorem c3_amended_export (stem ext : List Char) (ct : ConversionType)
    (hne : ext ≠ [])
    (hfe : fileExt (stem ++ ext) = ext)
    (hno : ∀ i, i < stem.length → ¬ matchAt (stem ++ ext) i ext) :
    (exportHandler (stem ++ ext) ct).fileName = stem ++ targetExt ct ∧
    (exportHandler (stem ++ ext) ct).mime = mimeOf ct ∧
    mimeOf ConversionType.csv = "text/csv" ∧
    mimeOf ConversionType.excel
      = "application/vnd.openxmlformats-officedocument.spreadsheetml.sheet"
      := by
  refine ⟨?_, rfl, rfl, rfl⟩
  show replaceAll (stem ++ ext) (fileExt (stem ++ ext)) (targetExt ct)
    = stem ++ targetExt ct
  rw [hfe]
  exact replaceAll_ext_only stem ext (targetExt ct) hne hno

/-- Witness for C3 at the lower-case upload "data.csv" converted to Excel:
the produced name is "data" with ".xlsx" appended. -/
theorem c3_amended_export_witness :
    (exportHandler (("data").data ++ (".csv").data)
        ConversionType.excel).fileName
      = ("data").data ++ targetExt ConversionType.excel ∧
    (exportHandler (("data").data ++ (".csv").data)
        ConversionType.excel).mime = mimeOf ConversionType.excel ∧
    mimeOf ConversionType.csv = "text/csv" ∧
    mimeOf ConversionType.excel
      = "application/vnd.openxmlformats-officedocument.spreadsheetml.sheet"
      :=
  c3_amended_export ("data").data (".csv").data ConversionType.excel
    (by decide) (by decide) (by decide)

end DataToolkit
